import Mathlib

/-!
Verification of the CAN-bus telemetry analysis pipeline (`main.py`).

The script is a pandas program: the embedding models each column
computation as a function over lists of sample records, and models the
pandas floating-point special values (`NaN`, `±inf`) that arise from
`diff()` on the first row and from division by a zero time delta with an
explicit value type `PVal`.  Finite values are rationals, so every
threshold comparison in the source is exact here.
-/

set_option maxRecDepth 2000

/-- A pandas cell value: a finite rational, `+inf`, `-inf`, or `NaN`.
`diff()` puts `NaN` in the first row; division of a nonzero finite value
by zero gives a signed infinity and `0/0` gives `NaN`. -/
inductive PVal where
  | fin : ℚ → PVal
  | pinf : PVal
  | ninf : PVal
  | nan : PVal
deriving DecidableEq, Repr, Inhabited

/-- Pandas `<` on values: any comparison with `NaN` is `False`. -/
def PVal.lt : PVal → PVal → Bool
  | .fin a, .fin b => decide (a < b)
  | .fin _, .pinf => true
  | .ninf, .fin _ => true
  | .ninf, .pinf => true
  | _, _ => false

/-- Subtraction with IEEE special-value propagation. -/
def PVal.sub : PVal → PVal → PVal
  | .fin a, .fin b => .fin (a - b)
  | .fin _, .pinf => .ninf
  | .fin _, .ninf => .pinf
  | .pinf, .fin _ => .pinf
  | .pinf, .ninf => .pinf
  | .ninf, .fin _ => .ninf
  | .ninf, .pinf => .ninf
  | _, _ => .nan

/-- Addition with IEEE special-value propagation. -/
def PVal.add : PVal → PVal → PVal
  | .fin a, .fin b => .fin (a + b)
  | .fin _, .pinf => .pinf
  | .fin _, .ninf => .ninf
  | .pinf, .fin _ => .pinf
  | .pinf, .pinf => .pinf
  | .ninf, .fin _ => .ninf
  | .ninf, .ninf => .ninf
  | _, _ => .nan

/-- Multiplication with IEEE special-value propagation. -/
def PVal.mul : PVal → PVal → PVal
  | .fin a, .fin b => .fin (a * b)
  | .fin a, .pinf => if 0 < a then .pinf else if a < 0 then .ninf else .nan
  | .fin a, .ninf => if 0 < a then .ninf else if a < 0 then .pinf else .nan
  | .pinf, .fin b => if 0 < b then .pinf else if b < 0 then .ninf else .nan
  | .ninf, .fin b => if 0 < b then .ninf else if b < 0 then .pinf else .nan
  | .pinf, .pinf => .pinf
  | .pinf, .ninf => .ninf
  | .ninf, .pinf => .ninf
  | .ninf, .ninf => .pinf
  | _, _ => .nan

/-- Division with IEEE special-value propagation; a nonzero finite value
divided by zero is a signed infinity and `0/0` is `NaN`, exactly the
behaviour of a pandas column division at a zero time delta. -/
def PVal.div : PVal → PVal → PVal
  | .fin a, .fin b =>
      if b = 0 then (if 0 < a then .pinf else if a < 0 then .ninf else .nan)
      else .fin (a / b)
  | .fin _, .pinf => .fin 0
  | .fin _, .ninf => .fin 0
  | .pinf, .fin b => if 0 ≤ b then .pinf else .ninf
  | .ninf, .fin b => if 0 ≤ b then .ninf else .pinf
  | _, _ => .nan

/-- Absolute value; `|±inf| = +inf`, `|NaN| = NaN` (pandas `Series.abs`). -/
def PVal.abs : PVal → PVal
  | .fin a => .fin |a|
  | .pinf => .pinf
  | .ninf => .pinf
  | .nan => .nan

/-- Pandas `Series.clip(lo, hi)`: finite values are clamped, `+inf`
becomes `hi`, `-inf` becomes `lo`, and `NaN` stays `NaN`. -/
def PVal.clip (v : PVal) (lo hi : ℚ) : PVal :=
  match v with
  | .fin a => .fin (min hi (max lo a))
  | .pinf => .fin hi
  | .ninf => .fin lo
  | .nan => .nan

/-- Pandas `Series.mean` with the default `skipna=True`: `NaN` entries are
dropped, and the mean of an empty (or all-`NaN`) series is `NaN`. -/
def pmean (xs : List PVal) : PVal :=
  let vs := xs.filter (fun v => v ≠ PVal.nan)
  match vs with
  | [] => PVal.nan
  | _ :: _ => (vs.foldl PVal.add (PVal.fin 0)).div (PVal.fin vs.length)

/-- Pandas `Series.min` over a column of finite values: `NaN` on an empty
series, otherwise the least element. -/
def pminQ (xs : List ℚ) : PVal :=
  match xs with
  | [] => PVal.nan
  | x :: t => PVal.fin (t.foldl min x)

/-- One raw telemetry row as handed to the script: `timestamp` is always
present, the sensor channels may be missing (`NaN` in the CSV). -/
structure RawSample where
  timestamp : ℚ
  rpm : Option ℚ
  tps : Option ℚ
  map : Option ℚ
  barometer : Option ℚ
  lambda : Option ℚ
deriving DecidableEq, Repr, Inhabited

/-- Smallest timestamp of the raw frame, `df['timestamp'].min()`
(defined as `0` on an empty frame, a case no claim touches). -/
def minTimestamp : List RawSample → ℚ
  | [] => 0
  | r :: rs => rs.foldl (fun m s => min m s.timestamp) r.timestamp

/-- The row-retention test of the cleaning stage:
`df.dropna(subset=['RPM','TPS','MAP','Lambda'])` followed by
`df_clean[df_clean['RPM'] > 0]`. -/
def isRetained (r : RawSample) : Bool :=
  match r.rpm, r.tps, r.map, r.lambda with
  | some rpm, some _, some _, some _ => decide (0 < rpm)
  | _, _, _, _ => false

/-- A cleaned row: the critical fields are known present (hence plain
rationals); `barometer` is the one non-critical sensor column and stays
optional because a missing leading value survives the forward fill. -/
structure CleanSample where
  timestamp : ℚ
  time_elapsed : ℚ
  rpm : ℚ
  tps : ℚ
  map : ℚ
  barometer : Option ℚ
  lambda : ℚ
deriving DecidableEq, Repr, Inhabited

/-- Forward-fill pass over the retained rows
(`df_clean.fillna(method='ffill')`): `barometer` is the only column that
can still hold `NaN` after the critical-field drop, and it is filled from
the nearest preceding retained row; `m` is the raw minimum timestamp used
by `df['time_elapsed'] = df['timestamp'] - df['timestamp'].min()`, which
the script computes before cleaning. -/
def ffillRows (prev : Option ℚ) (m : ℚ) : List RawSample → List CleanSample
  | [] => []
  | r :: rs =>
      let b : Option ℚ := match r.barometer with
        | some x => some x
        | none => prev
      { timestamp := r.timestamp
        time_elapsed := r.timestamp - m
        rpm := r.rpm.getD 0
        tps := r.tps.getD 0
        map := r.map.getD 0
        barometer := b
        lambda := r.lambda.getD 0 } :: ffillRows b m rs

/-- The whole cleaning stage producing `df_clean`: attach `time_elapsed`
relative to the raw minimum timestamp, drop rows missing a critical field
or with `RPM ≤ 0`, forward-fill the rest. -/
def df_clean (raws : List RawSample) : List CleanSample :=
  ffillRows none (minTimestamp raws) (raws.filter isRetained)

/-- The latest present barometer value among the given rows, seeded with a
previous value: reference semantics for a forward fill, used to state
which value a cleaned row's `barometer` receives. -/
def lastBar : Option ℚ → List RawSample → Option ℚ
  | prev, [] => prev
  | prev, r :: rs =>
      lastBar (match r.barometer with | some b => some b | none => prev) rs

/-- A cleaned row enriched with every derived column of the script. -/
structure DerivedSample where
  time_elapsed : ℚ
  rpm : ℚ
  tps : ℚ
  map : ℚ
  barometer : Option ℚ
  volumetric_efficiency : PVal
  rpm_change : PVal
  time_delta : PVal
  acceleration_rate : PVal
  tps_change : PVal
  map_change_rate : PVal
  power_index : ℚ
  is_accelerating : Bool
deriving DecidableEq, Repr, Inhabited

/-- Derivation of one row from its predecessor (if any): the `diff()`
columns are `NaN` on the first row, the rate columns divide by the
elapsed-time delta, and `is_accelerating = (rpm_change > 100) & (TPS > 50)`. -/
def deriveFrom (prev : Option CleanSample) (c : CleanSample) : DerivedSample :=
  let rpm_change : PVal := match prev with
    | some p => .fin (c.rpm - p.rpm)
    | none => .nan
  let time_delta : PVal := match prev with
    | some p => .fin (c.time_elapsed - p.time_elapsed)
    | none => .nan
  let tps_change : PVal := match prev with
    | some p => .fin (c.tps - p.tps)
    | none => .nan
  let map_change : PVal := match prev with
    | some p => .fin (c.map - p.map)
    | none => .nan
  { time_elapsed := c.time_elapsed
    rpm := c.rpm
    tps := c.tps
    map := c.map
    barometer := c.barometer
    volumetric_efficiency :=
      ((PVal.fin c.map).div (match c.barometer with
        | some b => PVal.fin b
        | none => PVal.nan)).mul (PVal.fin 100)
    rpm_change := rpm_change
    time_delta := time_delta
    acceleration_rate := rpm_change.div time_delta
    tps_change := tps_change
    map_change_rate := map_change.div time_delta
    power_index := (c.rpm / 1000) * (c.map / 10) * (c.tps / 100)
    is_accelerating := (PVal.fin 100).lt rpm_change && decide (50 < c.tps) }

/-- Left-to-right scan carrying the previous cleaned row, realising the
row-wise `diff()` columns. -/
def deriveList : Option CleanSample → List CleanSample → List DerivedSample
  | _, [] => []
  | prev, c :: cs => deriveFrom prev c :: deriveList (some c) cs

/-- All derived columns of the cleaned frame. -/
def derive (cs : List CleanSample) : List DerivedSample :=
  deriveList none cs

/-- The gear-shift filter of the script:
`(rpm_change < shift_threshold) & (TPS > 30)` with `shift_threshold = -500`. -/
def isShiftCandidate (d : DerivedSample) : Bool :=
  d.rpm_change.lt (PVal.fin (-500)) && decide (30 < d.tps)

/-- The `potential_shifts` sub-frame. -/
def potential_shifts (ds : List DerivedSample) : List DerivedSample :=
  ds.filter isShiftCandidate

/-- `shift_rpm_before = RPM - rpm_change`, the reconstructed pre-shift RPM. -/
def shift_rpm_before (d : DerivedSample) : PVal :=
  (PVal.fin d.rpm).sub d.rpm_change

/-- `avg_shift_rpm = potential_shifts['shift_rpm_before'].mean()`. -/
def avg_shift_rpm (ds : List DerivedSample) : PVal :=
  pmean ((potential_shifts ds).map shift_rpm_before)

/-- Pandas `Series.quantile(0.9)` with the default linear interpolation,
exact over the rationals; `none` on an empty series. -/
def quantile09 (xs : List ℚ) : Option ℚ :=
  match xs with
  | [] => none
  | _ :: _ =>
      let sorted := List.insertionSort (· ≤ ·) xs
      let h : ℚ := (9 / 10) * ((xs.length : ℚ) - 1)
      let i : ℕ := h.floor.toNat
      let j : ℕ := h.ceil.toNat
      let lo := sorted.getD i 0
      some (lo + (h - (i : ℚ)) * (sorted.getD j 0 - lo))

/-- The power-decile test `power_index > power_index.quantile(0.9)`;
pandas comparison with a `NaN` quantile (empty frame) is `False`. -/
def abovePowerQuantile (q : Option ℚ) (d : DerivedSample) : Bool :=
  match q with
  | some v => decide (v < d.power_index)
  | none => false

/-- The rows whose `power_index` exceeds the session's 90th percentile. -/
def highPowerRows (ds : List DerivedSample) : List DerivedSample :=
  ds.filter (abovePowerQuantile (quantile09 (ds.map DerivedSample.power_index)))

/-- `optimal_shift_rpm`: the minimum RPM among the rows above the power
quantile (pandas `min` of an empty selection is `NaN`). -/
def optimal_shift_rpm (ds : List DerivedSample) : PVal :=
  pminQ ((highPowerRows ds).map DerivedSample.rpm)

/-- `df_clean['RPM'].max()` as used by the aggression score
(`NaN` on an empty frame, like pandas). -/
def rpmMax (ds : List DerivedSample) : PVal :=
  match ds with
  | [] => PVal.nan
  | d :: t => PVal.fin (t.foldl (fun m x => max m x.rpm) d.rpm)

/-- The per-row composite aggression score, mirroring the source
expression term by term with the session-global `RPM` maximum passed in:
`(TPS/100)*0.3 + (|tps_change|/10).clip(0,1)*0.2 + (RPM/RPM.max())*0.3 +
(|map_change_rate|/5).clip(0,1)*0.2`. -/
def aggression_score (m : PVal) (d : DerivedSample) : PVal :=
  (((((PVal.fin d.tps).div (PVal.fin 100)).mul (PVal.fin (3 / 10))).add
    (((d.tps_change.abs.div (PVal.fin 10)).clip 0 1).mul (PVal.fin (1 / 5)))).add
    (((PVal.fin d.rpm).div m).mul (PVal.fin (3 / 10)))).add
    (((d.map_change_rate.abs.div (PVal.fin 5)).clip 0 1).mul (PVal.fin (1 / 5)))

/-- The aggression-score column over the whole derived frame. -/
def aggressionScores (ds : List DerivedSample) : List PVal :=
  ds.map (aggression_score (rpmMax ds))

/-- Membership test of `aggressive_moments`: `aggression_score > 0.5`
(strict, and `False` on a `NaN` score). -/
def isAggressiveMoment (m : PVal) (d : DerivedSample) : Bool :=
  (PVal.fin (1 / 2)).lt (aggression_score m d)

/-- Membership test of `smooth_moments`: `aggression_score < 0.3`. -/
def isSmoothMoment (m : PVal) (d : DerivedSample) : Bool :=
  (aggression_score m d).lt (PVal.fin (3 / 10))

/-- `avg_aggression = df_clean['aggression_score'].mean()`. -/
def avg_aggression (ds : List DerivedSample) : PVal :=
  pmean (aggressionScores ds)

/-- The session verdict printed by the script: `avg < 0.3` CONSERVATIVE,
`avg < 0.5` BALANCED, otherwise AGGRESSIVE. -/
def sessionAssessment (ds : List DerivedSample) : String :=
  let avg := avg_aggression ds
  if avg.lt (PVal.fin (3 / 10)) then "CONSERVATIVE"
  else if avg.lt (PVal.fin (1 / 2)) then "BALANCED"
  else "AGGRESSIVE"

/-! Concrete input sessions used to instantiate the theorems below. -/

/-- Scenario A of the spec: two rows, the second gaining 150 RPM at 60% throttle. -/
def sessionA : List RawSample :=
  [⟨0, some 2000, some 20, some 40, some 100, some 1⟩,
   ⟨1, some 2150, some 60, some 45, some 100, some 1⟩]

/-- Scenario B of the spec: a 600 RPM drop at 80% throttle, one gear shift. -/
def sessionB : List RawSample :=
  [⟨0, some 6000, some 80, some 45, some 100, some 1⟩,
   ⟨1, some 5400, some 80, some 45, some 100, some 1⟩]

/-- A session whose first raw row is dropped (engine off, `RPM = 0`)
while a later row is retained. -/
def sessionDropFirst : List RawSample :=
  [⟨0, some 0, some 10, some 40, some 100, some 1⟩,
   ⟨1, some 2000, some 10, some 40, some 100, some 1⟩]

/-- A one-row session: no shift events and a flat power distribution. -/
def sessionOne : List RawSample :=
  [⟨0, some 2000, some 20, some 40, some 100, some 1⟩]

/-- A session whose first retained row is missing the barometer reading. -/
def sessionNoBar : List RawSample :=
  [⟨0, some 2000, some 20, some 40, none, some 1⟩]

/-- A session with retained rows around a missing-barometer row, to
exercise the forward fill. -/
def sessionFfill : List RawSample :=
  [⟨0, some 2000, some 20, some 40, none, some 1⟩,
   ⟨1, some 2100, some 25, some 42, some 99, some 1⟩,
   ⟨2, some 2200, some 25, some 42, none, some 1⟩]

/-- A session with a duplicated timestamp: the third row has
`time_delta = 0` with a rising RPM and an unchanged MAP. -/
def sessionDupTime : List RawSample :=
  [⟨0, some 2000, some 20, some 40, some 100, some 1⟩,
   ⟨1, some 2100, some 25, some 40, some 100, some 1⟩,
   ⟨1, some 2200, some 30, some 40, some 100, some 1⟩]

/-- A session with a duplicated timestamp and an unchanged MAP on the
second row, giving that row a `0/0` (NaN) `map_change_rate`. -/
def sessionDupFlat : List RawSample :=
  [⟨0, some 3000, some 40, some 50, some 100, some 1⟩,
   ⟨0, some 3100, some 45, some 50, some 100, some 1⟩]

/-- A session engineered so the second row's aggression score is exactly
`0.5`: zero throttle, peak RPM, and a MAP rate of 5 per second. -/
def sessionHalf : List RawSample :=
  [⟨0, some 1000, some 0, some 40, some 100, some 1⟩,
   ⟨1, some 2000, some 0, some 45, some 100, some 1⟩]

/-! Helper lemmas about the value type and the aggregation helpers. -/

theorem PVal.add_nan_right (x : PVal) : x.add PVal.nan = PVal.nan := by
  cases x <;> rfl

theorem PVal.lt_iff_fin_right (x : PVal) (b : ℚ) :
    PVal.lt x (PVal.fin b) = true ↔ (∃ a, x = PVal.fin a ∧ a < b) ∨ x = PVal.ninf := by
  cases x <;> simp [PVal.lt]

theorem PVal.lt_iff_fin_left (a : ℚ) (y : PVal) :
    PVal.lt (PVal.fin a) y = true ↔ (∃ b, y = PVal.fin b ∧ a < b) ∨ y = PVal.pinf := by
  cases y <;> simp [PVal.lt]

theorem PVal.div_fin_of_ne (a b : ℚ) (h : b ≠ 0) :
    (PVal.fin a).div (PVal.fin b) = PVal.fin (a / b) := by
  simp [PVal.div, h]

theorem PVal.div_fin_zero_ne_fin (a q : ℚ) :
    (PVal.fin a).div (PVal.fin 0) ≠ PVal.fin q := by
  simp only [PVal.div, if_pos rfl]
  rcases lt_trichotomy 0 a with h | h | h
  · simp [h]
  · simp [h.symm, lt_irrefl]
  · simp [not_lt.mpr (le_of_lt h), h]

theorem foldl_add_fin (l : List PVal) :
    ∀ a : ℚ, (∀ v ∈ l, ∃ q, v = PVal.fin q) →
      ∃ b, l.foldl PVal.add (PVal.fin a) = PVal.fin b := by
  induction l with
  | nil => exact fun a _ => ⟨a, rfl⟩
  | cons v l ih =>
      intro a h
      obtain ⟨q, hq⟩ := h v (List.mem_cons_self v l)
      subst hq
      simpa [PVal.add] using ih (a + q) (fun w hw => h w (List.mem_cons_of_mem _ hw))

theorem pmean_eq_nan_iff (xs : List PVal) (h : ∀ v ∈ xs, ∃ q, v = PVal.fin q) :
    pmean xs = PVal.nan ↔ xs = [] := by
  constructor
  · intro hm
    by_contra hne
    have hfil : xs.filter (fun v => v ≠ PVal.nan) = xs := by
      apply List.filter_eq_self.mpr
      intro v hv
      obtain ⟨q, hq⟩ := h v hv
      subst hq; simp
    rw [pmean, hfil] at hm
    cases xs with
    | nil => exact hne rfl
    | cons v t =>
        obtain ⟨b, hb⟩ := foldl_add_fin (v :: t) 0 h
        rw [hb, PVal.div_fin_of_ne] at hm
        · exact PVal.noConfusion hm
        · exact_mod_cast Nat.cast_ne_zero.mpr (by simp)
  · intro hx; subst hx; rfl

theorem pminQ_eq_nan_iff (xs : List ℚ) : pminQ xs = PVal.nan ↔ xs = [] := by
  cases xs <;> simp [pminQ]

/-! Structural lemmas about the cleaning stage. -/

theorem isRetained_rpm_pos (r : RawSample) (h : isRetained r = true) :
    0 < r.rpm.getD 0 := by
  obtain ⟨ts, rpm, tps, mp, bar, lam⟩ := r
  rcases rpm with _ | rpm <;> rcases tps with _ | tps <;> rcases mp with _ | mp <;>
    rcases lam with _ | lam <;> simp [isRetained] at h ⊢ <;> exact h

theorem ffillRows_length (prev : Option ℚ) (m : ℚ) (l : List RawSample) :
    (ffillRows prev m l).length = l.length := by
  induction l generalizing prev with
  | nil => rfl
  | cons r rs ih => simp [ffillRows, ih]

theorem mem_ffillRows (prev : Option ℚ) (m : ℚ) (l : List RawSample)
    (c : CleanSample) (hc : c ∈ ffillRows prev m l) :
    ∃ r ∈ l, c.timestamp = r.timestamp ∧ c.time_elapsed = r.timestamp - m ∧
      c.rpm = r.rpm.getD 0 := by
  induction l generalizing prev with
  | nil => simp [ffillRows] at hc
  | cons r rs ih =>
      rw [ffillRows] at hc
      rcases List.mem_cons.mp hc with hc | hc
      · exact ⟨r, List.mem_cons_self r rs, by subst hc; exact ⟨rfl, rfl, rfl⟩⟩
      · obtain ⟨r', hr', h1, h2, h3⟩ := ih _ hc
        exact ⟨r', List.mem_cons_of_mem r hr', h1, h2, h3⟩

theorem mem_df_clean (raws : List RawSample) (c : CleanSample)
    (hc : c ∈ df_clean raws) :
    ∃ r ∈ raws, isRetained r = true ∧ c.timestamp = r.timestamp ∧
      c.time_elapsed = r.timestamp - minTimestamp raws ∧ 0 < c.rpm := by
  obtain ⟨r, hr, h1, h2, h3⟩ := mem_ffillRows _ _ _ _ hc
  have hret : isRetained r = true := List.of_mem_filter hr
  have hmem : r ∈ raws := List.mem_of_mem_filter hr
  exact ⟨r, hmem, hret, h1, h2, h3 ▸ isRetained_rpm_pos r hret⟩

theorem foldl_minT_le_init (l : List RawSample) (a : ℚ) :
    l.foldl (fun m s => min m s.timestamp) a ≤ a := by
  induction l generalizing a with
  | nil => exact le_refl a
  | cons s l ih => exact le_trans (ih (min a s.timestamp)) (min_le_left _ _)

theorem foldl_minT_le_mem (l : List RawSample) (a : ℚ) (r : RawSample)
    (hr : r ∈ l) : l.foldl (fun m s => min m s.timestamp) a ≤ r.timestamp := by
  induction l generalizing a with
  | nil => simp at hr
  | cons s l ih =>
      rcases List.mem_cons.mp hr with h | h
      · subst h
        exact le_trans (foldl_minT_le_init l (min a r.timestamp)) (min_le_right _ _)
      · exact ih (min a s.timestamp) h

theorem minTimestamp_le (raws : List RawSample) (r : RawSample) (hr : r ∈ raws) :
    minTimestamp raws ≤ r.timestamp := by
  cases raws with
  | nil => simp at hr
  | cons s l =>
      rcases List.mem_cons.mp hr with h | h
      · subst h; exact foldl_minT_le_init l r.timestamp
      · exact foldl_minT_le_mem l s.timestamp r h

theorem ffillRows_map_time (prev : Option ℚ) (m : ℚ) (l : List RawSample) :
    (ffillRows prev m l).map CleanSample.time_elapsed
      = l.map (fun r => r.timestamp - m) := by
  induction l generalizing prev with
  | nil => rfl
  | cons r rs ih => simp [ffillRows, ih]

/-! Structural lemmas about the derivation scan. -/

theorem deriveList_length (prev : Option CleanSample) (cs : List CleanSample) :
    (deriveList prev cs).length = cs.length := by
  induction cs generalizing prev with
  | nil => rfl
  | cons c cs ih => simp [deriveList, ih]

theorem derive_length (cs : List CleanSample) :
    (derive cs).length = cs.length := deriveList_length none cs

theorem mem_deriveList (prev : Option CleanSample) (cs : List CleanSample)
    (d : DerivedSample) (hd : d ∈ deriveList prev cs) :
    ∃ p c, c ∈ cs ∧ d = deriveFrom p c := by
  induction cs generalizing prev with
  | nil => simp [deriveList] at hd
  | cons c cs ih =>
      rw [deriveList] at hd
      rcases List.mem_cons.mp hd with h | h
      · exact ⟨prev, c, List.mem_cons_self c cs, h⟩
      · obtain ⟨p, c', hc', he⟩ := ih _ h
        exact ⟨p, c', List.mem_cons_of_mem c hc', he⟩

theorem deriveFrom_rpm (p : Option CleanSample) (c : CleanSample) :
    (deriveFrom p c).rpm = c.rpm := by cases p <;> rfl

theorem deriveFrom_tps (p : Option CleanSample) (c : CleanSample) :
    (deriveFrom p c).tps = c.tps := by cases p <;> rfl

theorem deriveFrom_rpm_change (p : Option CleanSample) (c : CleanSample) :
    (deriveFrom p c).rpm_change = PVal.nan ∨
      ∃ q, (deriveFrom p c).rpm_change = PVal.fin q := by
  cases p with
  | none => exact Or.inl rfl
  | some p => exact Or.inr ⟨c.rpm - p.rpm, rfl⟩

theorem deriveList_getD_succ (cs : List CleanSample) :
    ∀ (prev : Option CleanSample) (i : ℕ), i + 1 < cs.length →
      ∀ (dD : DerivedSample) (dC : CleanSample),
        (deriveList prev cs).getD (i + 1) dD
          = deriveFrom (some (cs.getD i dC)) (cs.getD (i + 1) dC) := by
  induction cs with
  | nil => intro prev i h; simp at h
  | cons c cs ih =>
      intro prev i h dD dC
      cases i with
      | zero =>
          cases cs with
          | nil => simp at h
          | cons c2 cs2 => rfl
      | succ i =>
          have h' : i + 1 < cs.length := by simpa using h
          simpa [deriveList] using ih (some c) i h' dD dC

theorem derive_getD_succ (cs : List CleanSample) (i : ℕ) (h : i + 1 < cs.length)
    (dD : DerivedSample) (dC : CleanSample) :
    (derive cs).getD (i + 1) dD
      = deriveFrom (some (cs.getD i dC)) (cs.getD (i + 1) dC) :=
  deriveList_getD_succ cs none i h dD dC

/-- C1: a derived row enters `potential_shifts` (yields a `ShiftEvent`) iff
its `rpm_change` is a defined value below `-500` and its `TPS` exceeds `30`,
and for every such row `shift_rpm_before` is `rpm - rpm_change`, so
`rpm_before + rpm_delta = rpm_after` (round-trip reconstruction law). -/
theorem C1_shift_event_iff (raws : List RawSample) (d : DerivedSample) :
    d ∈ potential_shifts (derive (df_clean raws)) ↔
      d ∈ derive (df_clean raws) ∧
        (∃ q, d.rpm_change = PVal.fin q ∧ q < -500 ∧
          shift_rpm_before d = PVal.fin (d.rpm - q) ∧ (d.rpm - q) + q = d.rpm) ∧
        30 < d.tps := by
  constructor
  · intro h
    have hmem : d ∈ derive (df_clean raws) := List.mem_of_mem_filter h
    have hcand : isShiftCandidate d = true := List.of_mem_filter h
    rw [isShiftCandidate, Bool.and_eq_true] at hcand
    obtain ⟨hlt, htps⟩ := hcand
    have htps' : 30 < d.tps := of_decide_eq_true htps
    rcases (PVal.lt_iff_fin_right _ _).mp hlt with ⟨q, hq, hqlt⟩ | hninf
    · refine ⟨hmem, ⟨q, hq, hqlt, ?_, by ring⟩, htps'⟩
      rw [shift_rpm_before, hq]; rfl
    · obtain ⟨p, c, _, hd⟩ := mem_deriveList none _ d hmem
      rcases deriveFrom_rpm_change p c with hn | ⟨q, hq⟩
      · rw [← hd, hninf] at hn; exact absurd hn (by simp)
      · rw [← hd, hninf] at hq; exact absurd hq (by simp)
  · rintro ⟨hmem, ⟨q, hq, hqlt, _, _⟩, htps⟩
    refine List.mem_filter.mpr ⟨hmem, ?_⟩
    rw [isShiftCandidate, Bool.and_eq_true]
    exact ⟨by rw [hq]; simpa [PVal.lt] using hqlt, decide_eq_true htps⟩

/-- Witness for C1 at Scenario B of the spec: the 6000 → 5400 RPM drop at
80% throttle is detected as a shift and its reconstructed pre-shift RPM
is exactly 6000. -/
theorem C1_shift_event_iff_witness :
    (derive (df_clean sessionB)).getD 1 default
        ∈ potential_shifts (derive (df_clean sessionB)) ∧
      shift_rpm_before ((derive (df_clean sessionB)).getD 1 default)
        = PVal.fin 6000 := by
  have hlen : 1 < (derive (df_clean sessionB)).length := by
    rw [derive_length]
    with_unfolding_all decide
  have hmem : (derive (df_clean sessionB)).getD 1 default
      ∈ derive (df_clean sessionB) := by
    rw [List.getD_eq_getElem _ default hlen]
    exact List.getElem_mem hlen
  have htps : (30 : ℚ) < ((derive (df_clean sessionB)).getD 1 default).tps := by
    have h80 : ((derive (df_clean sessionB)).getD 1 default).tps = 80 := by
      with_unfolding_all rfl
    rw [h80]; norm_num
  have h := (C1_shift_event_iff sessionB
      ((derive (df_clean sessionB)).getD 1 default)).mpr
    ⟨hmem,
     ⟨-600, by with_unfolding_all rfl, by norm_num,
      by with_unfolding_all rfl, by ring⟩,
     htps⟩
  exact ⟨h, by with_unfolding_all rfl⟩

/-- C10: the first cleaned row has no delta columns (they are `NaN`, an
absence, not zero), is never flagged accelerating, and never enters
`potential_shifts`. -/
theorem C10_first_row_inert (raws : List RawSample) (d : DerivedSample)
    (ds2 : List DerivedSample) (h : derive (df_clean raws) = d :: ds2) :
    d.rpm_change = PVal.nan ∧ d.tps_change = PVal.nan ∧
      d.time_delta = PVal.nan ∧ d.map_change_rate = PVal.nan ∧
      d.acceleration_rate = PVal.nan ∧ d.is_accelerating = false ∧
      isShiftCandidate d = false ∧
      d ∉ potential_shifts (derive (df_clean raws)) := by
  cases hcs : df_clean raws with
  | nil =>
      rw [hcs] at h
      simp [derive, deriveList] at h
  | cons c cs =>
      rw [hcs] at h
      rw [derive, deriveList] at h
      injection h with h1 _
      subst h1
      refine ⟨rfl, rfl, rfl, rfl, rfl, rfl, rfl, ?_⟩
      intro hmem
      have hc : isShiftCandidate (deriveFrom none c) = true :=
        List.of_mem_filter hmem
      rw [show isShiftCandidate (deriveFrom none c) = false from rfl] at hc
      exact Bool.noConfusion hc

/-- Witness for C10 on Scenario A input: the first derived row is not
accelerating and not a shift candidate. -/
theorem C10_first_row_inert_witness :
    ((derive (df_clean sessionA)).getD 0 default).is_accelerating = false ∧
      isShiftCandidate ((derive (df_clean sessionA)).getD 0 default) = false ∧
      ((derive (df_clean sessionA)).getD 0 default)
        ∉ potential_shifts (derive (df_clean sessionA)) := by
  have h := C10_first_row_inert sessionA
    ((derive (df_clean sessionA)).getD 0 default)
    ((derive (df_clean sessionA)).tail) (by with_unfolding_all rfl)
  exact ⟨h.2.2.2.2.2.1, h.2.2.2.2.2.2.1, h.2.2.2.2.2.2.2⟩

/-- C8: for every row after the first, `is_accelerating` holds iff the RPM
gained over the immediate predecessor exceeds 100 and `TPS` exceeds 50 —
a pure function of the consecutive pair, with no state carried across
rows; the row's `rpm_change` is exactly that RPM difference. -/
theorem C8_is_accelerating_pointwise (cs : List CleanSample) (i : ℕ)
    (h : i + 1 < cs.length) (dD : DerivedSample) (dC : CleanSample) :
    ((derive cs).getD (i + 1) dD).rpm_change
        = PVal.fin ((cs.getD (i + 1) dC).rpm - (cs.getD i dC).rpm) ∧
      ((derive cs).getD (i + 1) dD).is_accelerating
        = (decide (100 < (cs.getD (i + 1) dC).rpm - (cs.getD i dC).rpm)
            && decide (50 < (cs.getD (i + 1) dC).tps)) := by
  rw [derive_getD_succ cs i h dD dC]
  exact ⟨rfl, rfl⟩

/-- Witness for C8 at Scenario A of the spec: the second row gains 150 RPM
at 60% throttle and is flagged accelerating. -/
theorem C8_is_accelerating_pointwise_witness :
    ((derive (df_clean sessionA)).getD 1 default).rpm_change = PVal.fin 150 ∧
      ((derive (df_clean sessionA)).getD 1 default).is_accelerating = true := by
  have hlen : 0 + 1 < (df_clean sessionA).length := by with_unfolding_all decide
  have h := C8_is_accelerating_pointwise (df_clean sessionA) 0 hlen default default
  constructor
  · rw [h.1]; with_unfolding_all rfl
  · rw [h.2]; with_unfolding_all rfl

/-- C2 (amended): on timestamp-sorted input, every cleaned row has a
non-negative `time_elapsed`, the column is non-decreasing along the
cleaned sequence, and the first cleaned row's `time_elapsed` is its
timestamp minus the raw minimum — zero exactly when that row sits at the
raw minimum timestamp (not unconditionally zero, since `time_elapsed` is
assigned before rows are dropped). -/
theorem C2_time_elapsed (raws : List RawSample)
    (hsort : raws.Pairwise (fun a b => a.timestamp ≤ b.timestamp)) :
    (∀ c ∈ df_clean raws, 0 ≤ c.time_elapsed) ∧
      ((df_clean raws).map CleanSample.time_elapsed).Pairwise (· ≤ ·) ∧
      ∀ c rest, df_clean raws = c :: rest →
        c.time_elapsed = c.timestamp - minTimestamp raws ∧
          (c.time_elapsed = 0 ↔ c.timestamp = minTimestamp raws) := by
  refine ⟨?_, ?_, ?_⟩
  · intro c hc
    obtain ⟨r, hr, _, _, hte, _⟩ := mem_df_clean raws c hc
    rw [hte]
    have := minTimestamp_le raws r hr
    linarith
  · rw [df_clean, ffillRows_map_time, List.pairwise_map]
    have hfil : (raws.filter isRetained).Pairwise
        (fun a b => a.timestamp ≤ b.timestamp) :=
      hsort.sublist (List.filter_sublist _)
    exact hfil.imp (fun h => by linarith)
  · intro c rest heq
    have hc : c ∈ df_clean raws := by
      rw [heq]; exact List.mem_cons_self c rest
    obtain ⟨r, hr, _, hts, hte, _⟩ := mem_df_clean raws c hc
    refine ⟨by rw [hte, hts], ?_⟩
    rw [hte, hts]
    exact sub_eq_zero

/-- Witness for C2 at Scenario A input, whose timestamps are sorted. -/
theorem C2_time_elapsed_witness :
    (∀ c ∈ df_clean sessionA, 0 ≤ c.time_elapsed) ∧
      ((df_clean sessionA).map CleanSample.time_elapsed).Pairwise (· ≤ ·) ∧
      ∀ c rest, df_clean sessionA = c :: rest →
        c.time_elapsed = c.timestamp - minTimestamp sessionA ∧
          (c.time_elapsed = 0 ↔ c.timestamp = minTimestamp sessionA) :=
  C2_time_elapsed sessionA (by with_unfolding_all decide)

/-- Counterexample to C2 as stated: dropping the leading engine-off row of
a sorted session leaves a first cleaned row with `time_elapsed = 1 ≠ 0`,
because `time_elapsed` was assigned against the raw minimum timestamp
before cleaning. -/
theorem C2_first_time_elapsed_cex :
    (df_clean sessionDropFirst).map CleanSample.time_elapsed = [1] ∧
      sessionDropFirst.Pairwise (fun a b => a.timestamp ≤ b.timestamp) ∧
      (1 : ℚ) ≠ 0 :=
  ⟨by with_unfolding_all rfl, by with_unfolding_all decide, by norm_num⟩

/-! Lemmas tying the forward fill to its reference semantics, and the
shift rows to finite values. -/

theorem ffillRows_getD_barometer (l : List RawSample) :
    ∀ (prev : Option ℚ) (m : ℚ) (i : ℕ), i < l.length → ∀ dC : CleanSample,
      ((ffillRows prev m l).getD i dC).barometer = lastBar prev (l.take (i + 1)) := by
  induction l with
  | nil => intro prev m i h; simp at h
  | cons r rs ih =>
      intro prev m i h dC
      cases i with
      | zero => rfl
      | succ i =>
          have h' : i < rs.length := by simpa using h
          simpa [ffillRows, lastBar] using
            ih (match r.barometer with | some b => some b | none => prev) m i h' dC

theorem mem_shifts_rpm_change_fin (raws : List RawSample) (d : DerivedSample)
    (hd : d ∈ potential_shifts (derive (df_clean raws))) :
    ∃ q, d.rpm_change = PVal.fin q := by
  have hmem : d ∈ derive (df_clean raws) := List.mem_of_mem_filter hd
  have hcand : isShiftCandidate d = true := List.of_mem_filter hd
  rw [isShiftCandidate, Bool.and_eq_true] at hcand
  rcases (PVal.lt_iff_fin_right _ _).mp hcand.1 with ⟨q, hq, _⟩ | hninf
  · exact ⟨q, hq⟩
  · obtain ⟨p, c, _, hdc⟩ := mem_deriveList none _ d hmem
    rcases deriveFrom_rpm_change p c with hn | ⟨q, hq⟩
    · rw [← hdc, hninf] at hn; exact absurd hn (by simp)
    · rw [← hdc, hninf] at hq; exact absurd hq (by simp)

/-- C4 (amended): a cleaned row's `barometer` is the nearest preceding
retained row's present value (itself included); when no retained row up to
that index carries a barometer value the cell simply stays missing —
normalization still returns the row, and no error is raised. -/
theorem C4_barometer_ffill (raws : List RawSample) (i : ℕ)
    (h : i < (df_clean raws).length) (dC : CleanSample) :
    ((df_clean raws).getD i dC).barometer
      = lastBar none ((raws.filter isRetained).take (i + 1)) := by
  have hlen : i < (raws.filter isRetained).length := by
    rwa [df_clean, ffillRows_length] at h
  exact ffillRows_getD_barometer _ none (minTimestamp raws) i hlen dC

/-- Witness for C4: in a session whose rows 1 and 3 lack a barometer
reading, row 3 receives row 2's value 99 by forward fill. -/
theorem C4_barometer_ffill_witness :
    ((df_clean sessionFfill).getD 2 default).barometer
        = lastBar none ((sessionFfill.filter isRetained).take 3) ∧
      ((df_clean sessionFfill).getD 2 default).barometer = some 99 :=
  ⟨C4_barometer_ffill sessionFfill 2 (by with_unfolding_all decide) default,
   by with_unfolding_all rfl⟩

/-- Counterexample to C4 as stated: a session whose first (and only)
retained row lacks a barometer value is passed through with the value
still missing — the run does not fail with any error. -/
theorem C4_missing_first_barometer_cex :
    (df_clean sessionNoBar).map CleanSample.barometer = [none] ∧
      (df_clean sessionNoBar).length = 1 :=
  ⟨by with_unfolding_all rfl, by with_unfolding_all rfl⟩

/-- C3 (amended): `avg_shift_rpm` is NaN exactly when there are zero shift
rows, and `optimal_shift_rpm` is NaN exactly when zero rows exceed the
90th power-index percentile; in these degenerate cases the script
produces NaN rather than raising any error. -/
theorem C3_degenerate_nan (raws : List RawSample) :
    (avg_shift_rpm (derive (df_clean raws)) = PVal.nan ↔
        potential_shifts (derive (df_clean raws)) = []) ∧
      (optimal_shift_rpm (derive (df_clean raws)) = PVal.nan ↔
        highPowerRows (derive (df_clean raws)) = []) := by
  constructor
  · have hfin : ∀ v ∈ (potential_shifts (derive (df_clean raws))).map
        shift_rpm_before, ∃ q, v = PVal.fin q := by
      intro v hv
      obtain ⟨d, hd, rfl⟩ := List.mem_map.mp hv
      obtain ⟨q, hq⟩ := mem_shifts_rpm_change_fin raws d hd
      exact ⟨d.rpm - q, by rw [shift_rpm_before, hq]; rfl⟩
    rw [avg_shift_rpm, pmean_eq_nan_iff _ hfin, List.map_eq_nil_iff]
  · rw [optimal_shift_rpm, pminQ_eq_nan_iff, List.map_eq_nil_iff]

/-- Counterexample to C3 as stated: on a one-row session there are zero
shift events and zero rows above the power quantile, and both statistics
evaluate to NaN — no `InsufficientEventsError` exists in the script. -/
theorem C3_nan_not_error_cex :
    avg_shift_rpm (derive (df_clean sessionOne)) = PVal.nan ∧
      optimal_shift_rpm (derive (df_clean sessionOne)) = PVal.nan :=
  ⟨by with_unfolding_all rfl, by with_unfolding_all rfl⟩

/-! Lemmas about the session-global RPM maximum and the score expression. -/

theorem le_foldl_maxR (t : List DerivedSample) (a : ℚ) :
    a ≤ t.foldl (fun m x => max m x.rpm) a := by
  induction t generalizing a with
  | nil => exact le_refl a
  | cons x t ih => exact le_trans (le_max_left a x.rpm) (ih (max a x.rpm))

theorem mem_le_foldl_maxR (t : List DerivedSample) (a : ℚ) (x : DerivedSample)
    (hx : x ∈ t) : x.rpm ≤ t.foldl (fun m y => max m y.rpm) a := by
  induction t generalizing a with
  | nil => simp at hx
  | cons y t ih =>
      rcases List.mem_cons.mp hx with h | h
      · subst h
        exact le_trans (le_max_right a x.rpm) (le_foldl_maxR t (max a x.rpm))
      · exact ih (max a y.rpm) h

theorem mem_derive_rpm_pos (raws : List RawSample) (d : DerivedSample)
    (hd : d ∈ derive (df_clean raws)) : 0 < d.rpm := by
  obtain ⟨p, c, hc, rfl⟩ := mem_deriveList none _ d hd
  rw [deriveFrom_rpm]
  obtain ⟨_, _, _, _, _, hpos⟩ := mem_df_clean raws c hc
  exact hpos

theorem rpmMax_spec (raws : List RawSample) (d : DerivedSample)
    (hd : d ∈ derive (df_clean raws)) :
    ∃ M, rpmMax (derive (df_clean raws)) = PVal.fin M ∧ 0 < M ∧
      d.rpm ≤ M ∧ 0 < d.rpm := by
  have hdpos := mem_derive_rpm_pos raws d hd
  cases hds : derive (df_clean raws) with
  | nil => rw [hds] at hd; simp at hd
  | cons d0 t =>
      refine ⟨t.foldl (fun m x => max m x.rpm) d0.rpm, ?_, ?_, ?_, hdpos⟩
      · rfl
      · have h0pos : 0 < d0.rpm :=
          mem_derive_rpm_pos raws d0 (by rw [hds]; exact List.mem_cons_self d0 t)
        exact lt_of_lt_of_le h0pos (le_foldl_maxR t d0.rpm)
      · rw [hds] at hd
        rcases List.mem_cons.mp hd with h | h
        · subst h; exact le_foldl_maxR t d.rpm
        · exact mem_le_foldl_maxR t d0.rpm d h

theorem score_nan_of_map_nan (m : PVal) (d : DerivedSample)
    (h : d.map_change_rate = PVal.nan) : aggression_score m d = PVal.nan := by
  rw [aggression_score, h]
  exact PVal.add_nan_right _

theorem map_term_of_inf (d : DerivedSample)
    (h : d.map_change_rate = PVal.pinf ∨ d.map_change_rate = PVal.ninf) :
    (d.map_change_rate.abs.div (PVal.fin 5)).clip 0 1 = PVal.fin 1 := by
  rcases h with h | h <;> rw [h] <;>
    norm_num [PVal.abs, PVal.div, PVal.clip]

theorem aggression_score_eval (m : ℚ) (hm : m ≠ 0) (d : DerivedSample)
    (a : ℚ) (ha : d.tps_change = PVal.fin a) (u : ℚ)
    (hu : (d.map_change_rate.abs.div (PVal.fin 5)).clip 0 1 = PVal.fin u) :
    aggression_score (PVal.fin m) d
      = PVal.fin (d.tps / 100 * (3 / 10) + min 1 (max 0 (|a| / 10)) * (1 / 5)
          + d.rpm / m * (3 / 10) + u * (1 / 5)) := by
  rw [aggression_score, ha, hu]
  rw [PVal.div_fin_of_ne d.tps 100 (by norm_num),
      PVal.div_fin_of_ne d.rpm m hm]
  show PVal.fin _ = PVal.fin _
  norm_num [PVal.abs, PVal.div, PVal.clip, PVal.mul, PVal.add]

/-- C5 (amended): at a duplicated timestamp (`time_delta = 0`) the rate
columns are never finite — the division yields a signed infinity or NaN,
not an exception and not a silent finite value; a NaN `map_change_rate`
then makes the row's aggression score NaN, while an infinite one is
clipped and the score stays finite.  No aggregate in the script consumes
`acceleration_rate` at all. -/
theorem C5_zero_time_delta (raws : List RawSample) (i : ℕ)
    (h : i + 1 < (df_clean raws).length) (dD : DerivedSample) (dC : CleanSample)
    (hz : ((derive (df_clean raws)).getD (i + 1) dD).time_delta = PVal.fin 0) :
    (∀ q, ((derive (df_clean raws)).getD (i + 1) dD).acceleration_rate
        ≠ PVal.fin q) ∧
      (∀ q, ((derive (df_clean raws)).getD (i + 1) dD).map_change_rate
        ≠ PVal.fin q) ∧
      (((derive (df_clean raws)).getD (i + 1) dD).map_change_rate = PVal.nan →
        aggression_score (rpmMax (derive (df_clean raws)))
          ((derive (df_clean raws)).getD (i + 1) dD) = PVal.nan) ∧
      ((((derive (df_clean raws)).getD (i + 1) dD).map_change_rate = PVal.pinf ∨
          ((derive (df_clean raws)).getD (i + 1) dD).map_change_rate = PVal.ninf) →
        ∃ s, aggression_score (rpmMax (derive (df_clean raws)))
          ((derive (df_clean raws)).getD (i + 1) dD) = PVal.fin s) := by
  have hget := derive_getD_succ (df_clean raws) i h dD dC
  rw [hget] at hz ⊢
  set p := (df_clean raws).getD i dC with hp
  set c := (df_clean raws).getD (i + 1) dC with hc
  have hz2 : PVal.fin (c.time_elapsed - p.time_elapsed) = PVal.fin 0 := hz
  have hz3 : c.time_elapsed - p.time_elapsed = 0 := by injection hz2
  refine ⟨?_, ?_, ?_, ?_⟩
  · intro q
    show (PVal.fin (c.rpm - p.rpm)).div
        (PVal.fin (c.time_elapsed - p.time_elapsed)) ≠ PVal.fin q
    rw [hz3]
    exact PVal.div_fin_zero_ne_fin _ q
  · intro q
    show (PVal.fin (c.map - p.map)).div
        (PVal.fin (c.time_elapsed - p.time_elapsed)) ≠ PVal.fin q
    rw [hz3]
    exact PVal.div_fin_zero_ne_fin _ q
  · intro hnan
    exact score_nan_of_map_nan _ _ hnan
  · intro hinf
    have hmem : deriveFrom (some p) c ∈ derive (df_clean raws) := by
      rw [← hget]
      have hlen : i + 1 < (derive (df_clean raws)).length := by
        rwa [derive_length]
      rw [List.getD_eq_getElem _ dD hlen]
      exact List.getElem_mem hlen
    obtain ⟨M, hM, hMpos, _, _⟩ := rpmMax_spec raws _ hmem
    have hu := map_term_of_inf _ hinf
    rw [hM]
    exact ⟨_, aggression_score_eval M (ne_of_gt hMpos) _ (c.tps - p.tps) rfl 1 hu⟩

/-- Witness for C5: in a session whose third row repeats the previous
timestamp, that row's rate columns are not finite values. -/
theorem C5_zero_time_delta_witness :
    (∀ q, ((derive (df_clean sessionDupTime)).getD 2 default).acceleration_rate
        ≠ PVal.fin q) ∧
      (∀ q, ((derive (df_clean sessionDupTime)).getD 2 default).map_change_rate
        ≠ PVal.fin q) := by
  have h := C5_zero_time_delta sessionDupTime 1 (by with_unfolding_all decide)
    default default (by with_unfolding_all rfl)
  exact ⟨h.1, h.2.1⟩

/-- Counterexample to C5 as stated: at a duplicated timestamp the code
produces `acceleration_rate = +inf` (a defined infinity, not an absent
value), and the NaN `map_change_rate` reaches the downstream aggression
score, which becomes NaN. -/
theorem C5_inf_nan_cex :
    ((derive (df_clean sessionDupTime)).getD 2 default).time_delta
        = PVal.fin 0 ∧
      ((derive (df_clean sessionDupTime)).getD 2 default).acceleration_rate
        = PVal.pinf ∧
      ((derive (df_clean sessionDupTime)).getD 2 default).map_change_rate
        = PVal.nan ∧
      aggression_score (rpmMax (derive (df_clean sessionDupTime)))
        ((derive (df_clean sessionDupTime)).getD 2 default) = PVal.nan :=
  ⟨by with_unfolding_all rfl, by with_unfolding_all rfl,
   by with_unfolding_all rfl, by with_unfolding_all rfl⟩

/-- C6 (amended): a NaN `map_change_rate` propagates through the clipped
map-rate term into a NaN aggression score (the row is not skipped, but the
term does not contribute 0); an infinite `map_change_rate` is clipped to 1
and its term contributes the full weight `0.2`. -/
theorem C6_map_rate_absorption (m : PVal) (d : DerivedSample) :
    (d.map_change_rate = PVal.nan → aggression_score m d = PVal.nan) ∧
      ((d.map_change_rate = PVal.pinf ∨ d.map_change_rate = PVal.ninf) →
        (d.map_change_rate.abs.div (PVal.fin 5)).clip 0 1 = PVal.fin 1 ∧
          ((d.map_change_rate.abs.div (PVal.fin 5)).clip 0 1).mul
            (PVal.fin (1 / 5)) = PVal.fin (1 / 5)) := by
  refine ⟨score_nan_of_map_nan m d, fun h => ⟨map_term_of_inf d h, ?_⟩⟩
  rw [map_term_of_inf d h]
  norm_num [PVal.mul]

/-- Witness for C6: the duplicated-timestamp row of `sessionDupFlat` has a
NaN `map_change_rate` and its aggression score evaluates to NaN. -/
theorem C6_map_rate_absorption_witness :
    aggression_score (rpmMax (derive (df_clean sessionDupFlat)))
        ((derive (df_clean sessionDupFlat)).getD 1 default) = PVal.nan :=
  (C6_map_rate_absorption (rpmMax (derive (df_clean sessionDupFlat)))
    ((derive (df_clean sessionDupFlat)).getD 1 default)).1
    (by with_unfolding_all rfl)

/-- Counterexample to C6 as stated: a row with an undefined (NaN)
`map_change_rate` does not get a 0 contribution from the map-rate term —
its whole aggression score becomes NaN. -/
theorem C6_nan_score_cex :
    ((derive (df_clean sessionDupFlat)).getD 1 default).time_delta
        = PVal.fin 0 ∧
      ((derive (df_clean sessionDupFlat)).getD 1 default).map_change_rate
        = PVal.nan ∧
      aggression_score (rpmMax (derive (df_clean sessionDupFlat)))
        ((derive (df_clean sessionDupFlat)).getD 1 default) = PVal.nan :=
  ⟨by with_unfolding_all rfl, by with_unfolding_all rfl,
   by with_unfolding_all rfl⟩

/-- C9: for every pipeline row with `TPS ∈ [0,100]` and finite delta
columns, the aggression score is a finite value in `[0,1]`: each weighted
term is bounded by its weight and the weights sum to 1. -/
theorem C9_score_bounds (raws : List RawSample) (d : DerivedSample)
    (hd : d ∈ derive (df_clean raws)) (h0 : 0 ≤ d.tps) (h100 : d.tps ≤ 100)
    (ha : ∃ a, d.tps_change = PVal.fin a)
    (hb : ∃ b, d.map_change_rate = PVal.fin b) :
    ∃ s, aggression_score (rpmMax (derive (df_clean raws))) d = PVal.fin s ∧
      0 ≤ s ∧ s ≤ 1 := by
  obtain ⟨a, ha⟩ := ha
  obtain ⟨b, hb⟩ := hb
  obtain ⟨M, hM, hMpos, hle, hdpos⟩ := rpmMax_spec raws d hd
  have hu : (d.map_change_rate.abs.div (PVal.fin 5)).clip 0 1
      = PVal.fin (min 1 (max 0 (|b| / 5))) := by
    rw [hb]
    norm_num [PVal.abs, PVal.div, PVal.clip]
  rw [hM, aggression_score_eval M (ne_of_gt hMpos) d a ha _ hu]
  refine ⟨_, rfl, ?_, ?_⟩
  all_goals
    have htps1 : 0 ≤ d.tps / 100 := div_nonneg h0 (by norm_num)
    have htps2 : d.tps / 100 ≤ 1 := (div_le_one (by norm_num)).mpr h100
    have hc2a : 0 ≤ min 1 (max 0 (|a| / 10)) :=
      le_min (by norm_num) (le_max_left 0 _)
    have hc2b : min 1 (max 0 (|a| / 10)) ≤ 1 := min_le_left 1 _
    have hc4a : 0 ≤ min 1 (max 0 (|b| / 5)) :=
      le_min (by norm_num) (le_max_left 0 _)
    have hc4b : min 1 (max 0 (|b| / 5)) ≤ 1 := min_le_left 1 _
    have hr1 : 0 ≤ d.rpm / M := div_nonneg (le_of_lt hdpos) (le_of_lt hMpos)
    have hr2 : d.rpm / M ≤ 1 := (div_le_one hMpos).mpr hle
    linarith

/-- Witness for C9 at Scenario A: the accelerating second row's score is a
finite value in the unit interval. -/
theorem C9_score_bounds_witness :
    ∃ s, aggression_score (rpmMax (derive (df_clean sessionA)))
        ((derive (df_clean sessionA)).getD 1 default) = PVal.fin s ∧
      0 ≤ s ∧ s ≤ 1 := by
  have hlen : 1 < (derive (df_clean sessionA)).length := by
    rw [derive_length]; with_unfolding_all decide
  have hmem : (derive (df_clean sessionA)).getD 1 default
      ∈ derive (df_clean sessionA) := by
    rw [List.getD_eq_getElem _ default hlen]
    exact List.getElem_mem hlen
  have htps : ((derive (df_clean sessionA)).getD 1 default).tps = 60 := by
    with_unfolding_all rfl
  refine C9_score_bounds sessionA _ hmem ?_ ?_ ⟨40, ?_⟩ ⟨5, ?_⟩
  · rw [htps]; norm_num
  · rw [htps]; norm_num
  · with_unfolding_all rfl
  · with_unfolding_all rfl

/-- C7 (amended): per-row classification is `smooth` for score `< 0.3`,
`aggressive` only for score strictly greater than `0.5` (a score of
exactly `0.5` is a moderate moment, not aggressive), the remainder being
moderate; the session verdict on the mean uses `< 0.3` CONSERVATIVE,
`< 0.5` BALANCED, `≥ 0.5` AGGRESSIVE — so the two sides treat the value
`0.5` differently. -/
theorem C7_classification_thresholds :
    (∀ (m : PVal) (d : DerivedSample) (q : ℚ),
      aggression_score m d = PVal.fin q →
        (isSmoothMoment m d = true ↔ q < 3 / 10) ∧
        (isAggressiveMoment m d = true ↔ 1 / 2 < q) ∧
        (q = 1 / 2 → isSmoothMoment m d = false ∧
          isAggressiveMoment m d = false)) ∧
      (∀ (ds : List DerivedSample) (q : ℚ), avg_aggression ds = PVal.fin q →
        (sessionAssessment ds = "CONSERVATIVE" ↔ q < 3 / 10) ∧
        (sessionAssessment ds = "BALANCED" ↔ 3 / 10 ≤ q ∧ q < 1 / 2) ∧
        (sessionAssessment ds = "AGGRESSIVE" ↔ 1 / 2 ≤ q)) := by
  constructor
  · intro m d q h
    refine ⟨?_, ?_, ?_⟩
    · simp [isSmoothMoment, h, PVal.lt]
    · simp [isAggressiveMoment, h, PVal.lt]
    · intro hq
      subst hq
      constructor
      · simp [isSmoothMoment, h, PVal.lt]
        norm_num
      · simp [isAggressiveMoment, h, PVal.lt]
  · intro ds q h
    have hA : sessionAssessment ds = if q < 3 / 10 then "CONSERVATIVE"
        else if q < 1 / 2 then "BALANCED" else "AGGRESSIVE" := by
      simp only [sessionAssessment, h, PVal.lt]
      simp
    rw [hA]
    refine ⟨?_, ?_, ?_⟩ <;> split_ifs with h1 h2 <;> simp_all <;> linarith

/-- Witness for C7: a session whose mean score is exactly `0.5` receives
the AGGRESSIVE session verdict. -/
theorem C7_classification_thresholds_witness :
    sessionAssessment (derive (df_clean sessionHalf)) = "AGGRESSIVE" :=
  ((C7_classification_thresholds.2 (derive (df_clean sessionHalf)) (1 / 2)
    (by with_unfolding_all rfl)).2.2).mpr (by norm_num)

/-- Counterexample to C7 as stated: a row whose aggression score is exactly
`0.5` is not an aggressive moment (the code compares with strict `>`),
nor a smooth one — it is counted as moderate. -/
theorem C7_boundary_half_cex :
    aggression_score (rpmMax (derive (df_clean sessionHalf)))
        ((derive (df_clean sessionHalf)).getD 1 default) = PVal.fin (1 / 2) ∧
      isAggressiveMoment (rpmMax (derive (df_clean sessionHalf)))
        ((derive (df_clean sessionHalf)).getD 1 default) = false ∧
      isSmoothMoment (rpmMax (derive (df_clean sessionHalf)))
        ((derive (df_clean sessionHalf)).getD 1 default) = false :=
  ⟨by with_unfolding_all rfl, by with_unfolding_all rfl,
   by with_unfolding_all rfl⟩
